import Mathlib

/-!
Verification development for the wallet-manager repository.

The numeric semantics of the TypeScript source (IEEE doubles) is embedded
as exact rational arithmetic over `ℚ`.  JavaScript records are embedded as
association lists in insertion order (`List (String × _)`), JS `Set`
deduplication as first-occurrence deduplication, and the stable
`Array.prototype.sort` as a stable insertion sort.  Asynchronous external
calls (HTTP fetches, database queries) are embedded as explicit oracle
inputs; a call that throws is an oracle value of `none`.
-/

/-- Lookup in a JS record embedded as an association list (keys unique). -/
def alistLookup {α : Type} : List (String × α) → String → Option α
  | [], _ => none
  | p :: ps, k => if p.1 = k then some p.2 else alistLookup ps k

/-- JS record assignment `rec[k] = v`: overwrite in place, else append. -/
def recordSet {α : Type} : List (String × α) → String → α → List (String × α)
  | [], k, v => [(k, v)]
  | p :: ps, k, v => if p.1 = k then (k, v) :: ps else p :: recordSet ps k v

/-- Bool membership test for strings. -/
def strMem (k : String) : List String → Bool
  | [] => false
  | x :: xs => if x = k then true else strMem k xs

/-- `Array.from(new Set(l))`: first-occurrence order deduplication. -/
def dedupFirst (seen : List String) : List String → List String
  | [] => []
  | x :: xs => if strMem x seen then dedupFirst seen xs else x :: dedupFirst (x :: seen) xs

/-- The `round(n, dp)` helper of `rebalance.ts`:
`Math.round(n * 10^dp) / 10^dp`, with `Math.round` rounding half toward +∞. -/
def roundDp (n : ℚ) (dp : ℕ) : ℚ := ((⌊n * 10 ^ dp + 1 / 2⌋ : ℤ) : ℚ) / 10 ^ dp

/-- The floating-point-noise epsilon `1e-12` of `computeRebalancePlan`. -/
def planEps : ℚ := 1 / 1000000000000

structure Allocation where
  unit : String
  currentPct : ℚ
  targetPct : ℚ
  diffPctPoints : ℚ
deriving DecidableEq, Repr

structure RebalanceSuggestion where
  fromUnit : String
  toUnit : String
  fromQtyHuman : ℚ
  toQtyHuman : ℚ
  tradeValueUsd : ℚ
deriving DecidableEq, Repr

structure RebalancePlan where
  allocations : List Allocation
  suggestions : List RebalanceSuggestion
  notes : List String
deriving DecidableEq, Repr

/-- One entry of the `deltas` array of `computeRebalancePlan`. -/
structure DeltaEntry where
  unit : String
  currentUsd : ℚ
  desiredUsd : ℚ
  deltaUsd : ℚ
deriving DecidableEq, Repr

/-- Parameters of `computeRebalancePlan` (rebalance.ts).  `prices` embeds
`PriceMap = Record<string, { priceUsd?: number }>`: a key bound to `none`
embeds an entry whose `priceUsd` field is absent. -/
structure PlanParams where
  totalValueUsd : ℚ
  currentValuesUsd : List (String × ℚ)
  targetsPctPoints : List (String × ℚ)
  prices : List (String × Option ℚ)
  swapFeeBps : ℚ
deriving Repr

/-- `prices[unit]?.priceUsd`. -/
def priceLookup (prices : List (String × Option ℚ)) (u : String) : Option ℚ :=
  match alistLookup prices u with
  | some o => o
  | none => none

/-- JS falsiness of `prices[unit]?.priceUsd`: `undefined` and `0` are falsy
(a negative price is truthy and is used as-is by the source). -/
def priceMissing (o : Option ℚ) : Bool :=
  match o with
  | none => true
  | some v => v = 0

/-- Stable insertion placing `a` before `b` when `b.deltaUsd ≤ a.deltaUsd`:
together with `sortDesc` this computes the stable descending sort of
`.sort((a, b) => b.deltaUsd - a.deltaUsd)`. -/
def insertDesc (a : DeltaEntry) : List DeltaEntry → List DeltaEntry
  | [] => [a]
  | b :: bs => if b.deltaUsd ≤ a.deltaUsd then a :: b :: bs else b :: insertDesc a bs

def sortDesc : List DeltaEntry → List DeltaEntry
  | [] => []
  | a :: as => insertDesc a (sortDesc as)

/-- Stable ascending counterpart for `.sort((a, b) => a.deltaUsd - b.deltaUsd)`. -/
def insertAsc (a : DeltaEntry) : List DeltaEntry → List DeltaEntry
  | [] => [a]
  | b :: bs => if a.deltaUsd ≤ b.deltaUsd then a :: b :: bs else b :: insertAsc a bs

def sortAsc : List DeltaEntry → List DeltaEntry
  | [] => []
  | a :: as => insertAsc a (sortAsc as)

/-- `allUnits = Array.from(new Set([...keys(currentValuesUsd), ...keys(targetsPctPoints)]))`. -/
def planAllUnits (p : PlanParams) : List String :=
  dedupFirst [] (p.currentValuesUsd.map Prod.fst ++ p.targetsPctPoints.map Prod.fst)

def planAllocations (p : PlanParams) : List Allocation :=
  (planAllUnits p).map fun u =>
    let currentUsd := (alistLookup p.currentValuesUsd u).getD 0
    let currentPct := currentUsd / p.totalValueUsd * 100
    let targetPct := (alistLookup p.targetsPctPoints u).getD 0
    ⟨u, currentPct, targetPct, currentPct - targetPct⟩

def planDeltas (p : PlanParams) : List DeltaEntry :=
  (planAllUnits p).map fun u =>
    let currentUsd := (alistLookup p.currentValuesUsd u).getD 0
    let targetPct := (alistLookup p.targetsPctPoints u).getD 0
    let desiredUsd := targetPct / 100 * p.totalValueUsd
    ⟨u, currentUsd, desiredUsd, currentUsd - desiredUsd⟩

def planOverweight (p : PlanParams) : List DeltaEntry :=
  sortDesc ((planDeltas p).filter fun d => planEps < d.deltaUsd)

def planUnderweight (p : PlanParams) : List DeltaEntry :=
  sortAsc ((planDeltas p).filter fun d => d.deltaUsd < -planEps)

/-- `fee = Math.max(0, swapFeeBps) / 10_000`. -/
def planFee (p : PlanParams) : ℚ := max 0 p.swapFeeBps / 10000

/-- The two-pointer `while (i < overweight.length && j < underweight.length)`
sweep of `computeRebalancePlan`.  Pointer advance is embedded as dropping the
head of the corresponding list; the mutated `deltaUsd` fields live in the list
heads.  Each iteration drops at least one element (proved in
`sweepGo_fuel_irrelevant`), so fuel `over.length + under.length` always runs
the loop to completion. -/
def sweepGo (prices : List (String × Option ℚ)) (fee : ℚ) :
    ℕ → List DeltaEntry → List DeltaEntry → List RebalanceSuggestion × List String
  | _, [], _ => ([], [])
  | _, _ :: _, [] => ([], [])
  | 0, _ :: _, _ :: _ => ([], [])
  | fuel + 1, f :: fs, t :: ts =>
    let move := min f.deltaUsd (-t.deltaUsd)
    if move ≤ 0 then ([], [])
    else
      let fromP := priceLookup prices f.unit
      let toP := priceLookup prices t.unit
      if priceMissing fromP || priceMissing toP then
        let note := "Missing USD price for " ++ (if priceMissing fromP then f.unit else "")
          ++ (if priceMissing fromP && priceMissing toP then " and " else "")
          ++ (if priceMissing toP then t.unit else "")
          ++ "; cannot suggest swap for this leg."
        let rest := sweepGo prices fee fuel
          (if priceMissing fromP then fs else f :: fs)
          (if priceMissing toP then ts else t :: ts)
        (rest.1, note :: rest.2)
      else
        let fromQty := move / (fromP.getD 0)
        let receivedUsd := move * (1 - fee)
        let toQty := receivedUsd / (toP.getD 0)
        let sug : RebalanceSuggestion :=
          ⟨f.unit, t.unit, roundDp fromQty 8, roundDp toQty 8, roundDp move 6⟩
        let f' : DeltaEntry := { f with deltaUsd := f.deltaUsd - move }
        let t' : DeltaEntry := { t with deltaUsd := t.deltaUsd + move }
        let rest := sweepGo prices fee fuel
          (if f'.deltaUsd ≤ planEps then fs else f' :: fs)
          (if -planEps ≤ t'.deltaUsd then ts else t' :: ts)
        (sug :: rest.1, rest.2)

/-- `computeRebalancePlan` of rebalance.ts.  Over `ℚ` every value is finite,
so the guard `!Number.isFinite(totalValueUsd) || totalValueUsd <= 0` reduces
to `totalValueUsd ≤ 0`. -/
def computeRebalancePlan (p : PlanParams) : RebalancePlan :=
  if p.totalValueUsd ≤ 0 then
    ⟨[], [], ["Portfolio total value is zero; cannot rebalance."]⟩
  else
    let res := sweepGo p.prices (planFee p)
      ((planOverweight p).length + (planUnderweight p).length)
      (planOverweight p) (planUnderweight p)
    ⟨planAllocations p, res.1,
      res.2 ++ if res.1.isEmpty
        then ["No actionable swap suggestions (already balanced or missing pricing)."]
        else []⟩

/-- Sum of the `tradeValueUsd` fields of a suggestion list. -/
def sugTradeSum (l : List RebalanceSuggestion) : ℚ :=
  (l.map RebalanceSuggestion.tradeValueUsd).sum

/-- The sum over all working-set units of `max 0 (currentValue − targetPct/100 × total)`:
the total overweight value of the portfolio. -/
def overweightSum (p : PlanParams) : ℚ :=
  ((planDeltas p).map fun d => max 0 d.deltaUsd).sum

/-! ### Unit/Quantity normalizer (tokenPricing.ts `applyDecimals`)

The JS builtin `Number(quantityRaw)` is embedded by `jsNumber`: it yields the
exact rational value of an optionally signed decimal literal (optionally
whitespace-padded, empty = 0, as in JS), and `none` where `Number()` yields a
non-finite value (`NaN`/`±Infinity`); `quantity_raw` values are decimal
integer strings (`NUMERIC(78,0)`), so exotic literal forms (hex, exponent)
are out of the model and map to `none`. -/

def isDigitChar (c : Char) : Bool := '0' ≤ c && c ≤ '9'

def digitsVal : List Char → ℕ :=
  List.foldl (fun n c => 10 * n + (c.toNat - '0'.toNat)) 0

def trimChars (cs : List Char) : List Char :=
  ((cs.dropWhile Char.isWhitespace).reverse.dropWhile Char.isWhitespace).reverse

/-- Unsigned decimal literal `digits [. digits]`; the value is returned as
(numerator, number of fractional digits). -/
def parseUnsigned (cs : List Char) : Option (ℕ × ℕ) :=
  let ip := cs.takeWhile isDigitChar
  match cs.dropWhile isDigitChar with
  | [] => if ip = [] then none else some (digitsVal ip, 0)
  | '.' :: fp =>
    if fp.all isDigitChar && (!ip.isEmpty || !fp.isEmpty) then
      some (digitsVal ip * 10 ^ fp.length + digitsVal fp, fp.length)
    else none
  | _ => none

def parseJsDecimal (cs : List Char) : Option (ℤ × ℕ) :=
  let t := trimChars cs
  if t = [] then some (0, 0)
  else
    match t with
    | '-' :: rest => (parseUnsigned rest).map fun p => (-(p.1 : ℤ), p.2)
    | '+' :: rest => (parseUnsigned rest).map fun p => ((p.1 : ℤ), p.2)
    | _ => (parseUnsigned t).map fun p => ((p.1 : ℤ), p.2)

def jsNumber (s : String) : Option ℚ :=
  (parseJsDecimal s.data).map fun p => (p.1 : ℚ) / 10 ^ p.2

/-- `applyDecimals(quantityRaw, decimals)` of tokenPricing.ts /
thresholdAlerts: `Number` parse, 0 on non-finite, raw value when `decimals`
is absent or `≤ 0` (JS falsiness of `decimals` gives the same cases),
otherwise divide by `10^decimals`. -/
def applyDecimals (quantityRaw : String) (decimals : Option ℤ) : ℚ :=
  match jsNumber quantityRaw with
  | none => 0
  | some q =>
    match decimals with
    | none => q
    | some d => if d ≤ 0 then q else q / (10 : ℚ) ^ d

/-! ### Threshold Alert Evaluator (`runThresholdAlerts`, part_001, and the
`check-thresholds` API handler) -/

inductive ThresholdBasis where
  | usd
  | ada
  | btc
  | holdings
deriving DecidableEq, Repr

structure WalletRow where
  id : String
  wallet_name : Option String
  stake_address : String
  threshold_basis : ThresholdBasis
  deviation_threshold_pct_points : ℚ
  swap_fee_bps : ℚ
  is_active : Bool
deriving Repr

structure SnapshotRow where
  id : String
  wallet_id : String
  snapshot_bucket : String
deriving DecidableEq, Repr

structure BalanceRow where
  snapshot_id : String
  unit : String
  quantity_raw : String
  decimals : Option ℤ
deriving Repr

structure PriceSnapshotRow where
  snapshot_bucket : String
  unit : String
  price_usd : Option ℚ
deriving Repr

structure Deviation where
  unit : String
  currentPct : ℚ
  targetPct : ℚ
  diff : ℚ
deriving DecidableEq, Repr

structure AlertEventRow where
  id : ℕ
  wallet_id : String
  snapshot_id : String
  deviation_threshold_pct_points : ℚ
  deviations : List Deviation
  plan : RebalancePlan
  discord_sent : Bool
  discord_error : Option String
deriving Repr

/-- The database rows the evaluator reads and writes. -/
structure AlertDb where
  targets : List (String × String × ℚ)
  snapshots : List SnapshotRow
  balances : List BalanceRow
  priceRows : List PriceSnapshotRow
  alertEvents : List AlertEventRow
deriving Repr

/-- `wallet_token_targets` rows of a wallet, as the `targetsMap` record
(unit, target_pct_points) in row order. -/
def targetsFor (db : AlertDb) (walletId : String) : List (String × ℚ) :=
  db.targets.filterMap fun r => if r.1 == walletId then some (r.2.1, r.2.2) else none

/-- Pick the row with the greatest `snapshot_bucket`
(`order("snapshot_bucket", { ascending: false }).limit(1)`); first row wins
ties (buckets are unique per wallet by schema). -/
def latestSnapshot : List SnapshotRow → Option SnapshotRow
  | [] => none
  | r :: rs =>
    match latestSnapshot rs with
    | none => some r
    | some b => if compare r.snapshot_bucket b.snapshot_bucket == Ordering.lt then some b else some r

/-- Snapshot selection: bucket-scoped `maybeSingle` when a bucket is given,
else the latest snapshot of the wallet. -/
def selectSnapshot (db : AlertDb) (walletId : String) (bucketIso : Option String) :
    Option SnapshotRow :=
  let rows := db.snapshots.filter fun r => r.wallet_id == walletId
  match bucketIso with
  | some b =>
    match rows.filter (fun r => r.snapshot_bucket == b) with
    | [r] => some r
    | _ => none
  | none => latestSnapshot rows

/-- The `quantitiesHuman` record built from the snapshot's balance rows. -/
def quantitiesHumanFor (db : AlertDb) (snapshotId : String) : List (String × ℚ) :=
  (db.balances.filter fun b => b.snapshot_id == snapshotId).foldl
    (fun acc b => recordSet acc b.unit (applyDecimals b.quantity_raw b.decimals)) []

/-- `unitsNeeded = Array.from(new Set(["lovelace", "BTC", ...keys(targetsMap)]))`. -/
def unitsNeeded (targetsMap : List (String × ℚ)) : List String :=
  dedupFirst [] ("lovelace" :: "BTC" :: targetsMap.map Prod.fst)

/-- The `priceUsd` record built from `token_price_snapshots` rows of the
bucket, keeping only non-null prices. -/
def priceUsdFor (db : AlertDb) (bucket : String) (units : List String) : List (String × ℚ) :=
  (db.priceRows.filter fun p =>
      p.snapshot_bucket == bucket && strMem p.unit units).foldl
    (fun acc p =>
      match p.price_usd with
      | some v => recordSet acc p.unit v
      | none => acc) []

/-- The `valueUsdByUnit` record: for each target unit with a resolved USD
price, `qty × priceUsd`; then `lovelace` is (re)assigned whenever the ADA
USD price is present. -/
def valueUsdByUnitList (targetsMap : List (String × ℚ))
    (qty priceUsd : List (String × ℚ)) : List (String × ℚ) :=
  let base := targetsMap.filterMap fun p =>
    (alistLookup priceUsd p.1).map fun pu => (p.1, (alistLookup qty p.1).getD 0 * pu)
  match alistLookup priceUsd "lovelace" with
  | some a => recordSet base "lovelace" ((alistLookup qty "lovelace").getD 0 * a)
  | none => base

/-- The nested conditional `basis === "usd" ? x : basis === "ada" && adaUsd
? x / adaUsd : basis === "btc" && btcUsd ? x / btcUsd : x` (JS truthiness:
a price of 0 falls through to the raw USD value). -/
def convertByBasis (basis : ThresholdBasis) (adaUsd btcUsd : Option ℚ) (x : ℚ) : ℚ :=
  match basis with
  | .usd => x
  | .ada =>
    match adaUsd with
    | some a => if a = 0 then x else x / a
    | none => x
  | .btc =>
    match btcUsd with
    | some b => if b = 0 then x else x / b
    | none => x
  | .holdings => x

/-- The `currentPct` record of the evaluator, keyed by the target units. -/
def computeCurrentPct (basis : ThresholdBasis) (targetsMap : List (String × ℚ))
    (qty priceUsd : List (String × ℚ)) : List (String × ℚ) :=
  match basis with
  | .holdings =>
    let totalQty := (targetsMap.map fun p => (alistLookup qty p.1).getD 0).sum
    targetsMap.map fun p =>
      (p.1, if 0 < totalQty then (alistLookup qty p.1).getD 0 / totalQty * 100 else 0)
  | b =>
    let valueUsd := valueUsdByUnitList targetsMap qty priceUsd
    let adaUsd := alistLookup priceUsd "lovelace"
    let btcUsd := alistLookup priceUsd "BTC"
    let totalUsd := (targetsMap.map fun p => (alistLookup valueUsd p.1).getD 0).sum
    let denom := convertByBasis b adaUsd btcUsd totalUsd
    targetsMap.map fun p =>
      let vUsd := (alistLookup valueUsd p.1).getD 0
      let v := convertByBasis b adaUsd btcUsd vUsd
      (p.1, if 0 < denom then v / denom * 100 else 0)

/-- The deviation loop: for each `(unit, target)` of `targetsMap`, with
`c = currentPct[unit] ?? 0` and `diff = c - target`, report the unit when
`Math.abs(diff) >= threshold`. -/
def computeDeviations (currentPct : List (String × ℚ)) (targetsMap : List (String × ℚ))
    (threshold : ℚ) : List Deviation :=
  targetsMap.filterMap fun p =>
    let c := (alistLookup currentPct p.1).getD 0
    let diff := c - p.2
    if threshold ≤ |diff| then some ⟨p.1, c, p.2, diff⟩ else none

/-- The `pricesForPlan` record: target units with a resolved USD price, then
`lovelace` whenever ADAUSD exists. -/
def pricesForPlanOf (targetsMap : List (String × ℚ)) (priceUsd : List (String × ℚ)) :
    List (String × Option ℚ) :=
  let base := targetsMap.filterMap fun p =>
    (alistLookup priceUsd p.1).map fun v => (p.1, some v)
  match alistLookup priceUsd "lovelace" with
  | some v => recordSet base "lovelace" (some v)
  | none => base

/-- `.update({ discord_sent, discord_error }).eq("id", evtId)`. -/
def setDiscordStatus (events : List AlertEventRow) (i : ℕ) (sent : Bool)
    (err : Option String) : List AlertEventRow :=
  events.map fun e =>
    if e.id = i then { e with discord_sent := sent, discord_error := err } else e

/-- The body of one wallet iteration of the Threshold Alert Evaluator after
the snapshot is selected: allocations, deviations, plan, alert-event insert,
then webhook delivery with status write-back.  `webhookConfigured` embeds
`process.env.DISCORD_WEBHOOK_URL` being set; `sendOk` embeds the outcome of
the `sendDiscordWebhook` call; the Discord message text is not modelled.
The returned number is the contribution to `alertsSent`. -/
def processWalletCore (webhookConfigured sendOk : Bool) (db : AlertDb) (w : WalletRow)
    (targetsMap : List (String × ℚ)) (snapshot : SnapshotRow) : AlertDb × ℕ :=
  let qty := quantitiesHumanFor db snapshot.id
  let priceUsd := priceUsdFor db snapshot.snapshot_bucket (unitsNeeded targetsMap)
  let valueUsd := valueUsdByUnitList targetsMap qty priceUsd
  let currentPct := computeCurrentPct w.threshold_basis targetsMap qty priceUsd
  let threshold := w.deviation_threshold_pct_points
  let deviations := computeDeviations currentPct targetsMap threshold
  if deviations.isEmpty then (db, 0)
  else
    let totalUsdForPlan := (targetsMap.map fun p => (alistLookup valueUsd p.1).getD 0).sum
    let plan := computeRebalancePlan
      ⟨totalUsdForPlan, valueUsd, targetsMap, pricesForPlanOf targetsMap priceUsd,
        w.swap_fee_bps⟩
    let evt : AlertEventRow :=
      ⟨db.alertEvents.length, w.id, snapshot.id, threshold, deviations, plan, false, none⟩
    let db1 := { db with alertEvents := db.alertEvents ++ [evt] }
    if webhookConfigured then
      if sendOk then
        ({ db1 with alertEvents := setDiscordStatus db1.alertEvents evt.id true none }, 1)
      else
        ({ db1 with
            alertEvents :=
              setDiscordStatus db1.alertEvents evt.id false (some "Discord webhook failed") }, 0)
    else (db1, 0)

/-- One wallet iteration of `runThresholdAlerts` (part_001): skip without
targets, select the snapshot, skip when an alert event already exists for
this (wallet, snapshot) pair — the idempotency gate, placed before any
balance/price read or plan computation — else run the core body. -/
def processWalletLib (webhookConfigured sendOk : Bool) (bucketIso : Option String)
    (db : AlertDb) (w : WalletRow) : AlertDb × ℕ :=
  let targetsMap := targetsFor db w.id
  if targetsMap.isEmpty then (db, 0)
  else
    match selectSnapshot db w.id bucketIso with
    | none => (db, 0)
    | some snapshot =>
      if db.alertEvents.any fun e =>
          e.wallet_id == w.id && e.snapshot_id == snapshot.id then (db, 0)
      else processWalletCore webhookConfigured sendOk db w targetsMap snapshot

/-- One wallet iteration of the `check-thresholds` API handler: the same
body, but with no alert-event existence check (and always the latest
snapshot).  `wallet_alert_events` carries no uniqueness constraint on
(wallet_id, snapshot_id) in the schema, so the insert always succeeds. -/
def processWalletApi (webhookConfigured sendOk : Bool) (db : AlertDb) (w : WalletRow) :
    AlertDb × ℕ :=
  let targetsMap := targetsFor db w.id
  if targetsMap.isEmpty then (db, 0)
  else
    match selectSnapshot db w.id none with
    | none => (db, 0)
    | some snapshot => processWalletCore webhookConfigured sendOk db w targetsMap snapshot

/-- Number of alert event rows for a (wallet, snapshot) pair in a row list. -/
def countEvents (events : List AlertEventRow) (walletId snapshotId : String) : ℕ :=
  (events.filter fun e =>
    e.wallet_id == walletId && e.snapshot_id == snapshotId).length

/-- Number of alert event rows stored for a (wallet, snapshot) pair. -/
def eventCount (db : AlertDb) (walletId snapshotId : String) : ℕ :=
  countEvents db.alertEvents walletId snapshotId

/-! ### Price Resolver (tokenPriceService.ts) -/

structure TokenDefinition where
  unit : String
  display_name : Option String
  ticker : Option String
  is_active : Bool
  pricing_source : String
  kraken_pair_query : Option String
  kraken_result_key_hint : Option String
  coingecko_id : Option String
  manual_price_usd : Option ℚ
deriving Repr

structure TokenUsdPriceResult where
  unit : String
  priceUsd : Option ℚ
  source : Option String
  error : Option String
deriving DecidableEq, Repr

structure KrakenUsdRates where
  adaUsd : ℚ
  btcUsd : ℚ
deriving DecidableEq, Repr

/-- Outcomes of the outbound HTTP calls, as oracle inputs.  `krakenAdaBtc`
is the result of `fetchKrakenAdaBtcUsdRates()` (`none` embeds a network
error, a non-OK response, or invalid ADAUSD/XBTUSD rates — all of which
throw there).  `krakenPairs`/`coingeckoSimple` are the parsed, filtered
(finite, positive) price maps of `fetchKrakenPairsUsd`/`fetchCoinGeckoUsd`,
`none` embedding a thrown error. -/
structure PriceFetchWorld where
  krakenAdaBtc : Option KrakenUsdRates
  krakenPairs : List String → Option (List (String × ℚ))
  coingeckoSimple : List String → Option (List (String × ℚ))

/-- `getBaseUsdRates()`: Kraken first; on failure fall back to CoinGecko
ids `bitcoin`/`cardano`, re-validated as finite and positive (a failed
validation throws, embedded as `none`). -/
def getBaseUsdRates (world : PriceFetchWorld) : Option KrakenUsdRates :=
  match world.krakenAdaBtc with
  | some r => some r
  | none =>
    match world.coingeckoSimple ["bitcoin", "cardano"] with
    | none => none
    | some cg =>
      match alistLookup cg "cardano", alistLookup cg "bitcoin" with
      | some ada, some btc => if 0 < ada ∧ 0 < btc then some ⟨ada, btc⟩ else none
      | _, _ => none

/-- `text.toUpperCase().includes(sub.toUpperCase())`. -/
def upperHas (text sub : String) : Bool :=
  let rec go : List Char → List Char → Bool
    | _, [] => true
    | [], _ :: _ => false
    | a :: as, b :: bs =>
      (if a = b then go2 as bs else false) || go as (b :: bs)
  termination_by big _ => big.length
  go text.toUpper.data sub.toUpper.data
where
  go2 : List Char → List Char → Bool
    | _, [] => true
    | [], _ :: _ => false
    | a :: as, b :: bs => if a = b then go2 as bs else false

/-- `pickKrakenResultKey`: hint-first, then pair-name, then sole-key
fallback over the Kraken result keys. -/
def pickKrakenResultKey (result : List (String × ℚ)) (hint pair : Option String) :
    Option String :=
  let keys := result.map Prod.fst
  match hint.bind (fun h => keys.find? fun k => upperHas k h) with
  | some k => some k
  | none =>
    match pair.bind (fun q => keys.find? fun k => upperHas k q) with
    | some k => some k
    | none =>
      match keys with
      | [k] => some k
      | _ => none

/-- The per-unit body of the `for (const unit of units)` loop of
`getTokenUsdPrices`: the two base units are answered from the Kraken base
rates regardless of any token definition; other units go through their
definition's pricing source. -/
def resolveUnit (krakenRates : Option KrakenUsdRates) (defs : List TokenDefinition)
    (krakenRaw cgRaw : List (String × ℚ)) (unit : String) : TokenUsdPriceResult :=
  if unit == "lovelace" then
    match krakenRates with
    | some r => ⟨unit, some r.adaUsd, some "kraken:ADAUSD", none⟩
    | none => ⟨unit, none, none, some "Failed to fetch ADAUSD from Kraken"⟩
  else if unit == "BTC" then
    match krakenRates with
    | some r => ⟨unit, some r.btcUsd, some "kraken:BTCUSD", none⟩
    | none => ⟨unit, none, none, some "Failed to fetch BTCUSD from Kraken"⟩
  else
    match (defs.find? fun d => d.unit == unit) with
    | none => ⟨unit, none, none, some "No token definition"⟩
    | some def_ =>
      if def_.pricing_source == "manual" then
        ⟨unit, def_.manual_price_usd, some "manual", none⟩
      else if def_.pricing_source == "coingecko" then
        match def_.coingecko_id.bind (alistLookup cgRaw) with
        | some p =>
          ⟨unit, some p, some ("coingecko:" ++ def_.coingecko_id.getD "unknown"), none⟩
        | none =>
          ⟨unit, none, some ("coingecko:" ++ def_.coingecko_id.getD "unknown"),
            some "Price not found"⟩
      else if def_.pricing_source == "kraken" then
        match (pickKrakenResultKey krakenRaw def_.kraken_result_key_hint
            def_.kraken_pair_query).bind (alistLookup krakenRaw) with
        | some p =>
          ⟨unit, some p,
            some ("kraken:" ++ (pickKrakenResultKey krakenRaw
              def_.kraken_result_key_hint def_.kraken_pair_query).getD ""), none⟩
        | none =>
          ⟨unit, none, some ("kraken:" ++ def_.kraken_pair_query.getD "unknown"),
            some "Price not found"⟩
      else ⟨unit, none, none, some "Unsupported pricing_source"⟩

/-- `getTokenUsdPrices` (tokenPriceService.ts, the version with the base-rate
handling).  `tokensQuery` is the `tokens` table query outcome (`none` embeds
a query error). -/
def getTokenUsdPrices (world : PriceFetchWorld)
    (tokensQuery : Option (List TokenDefinition)) (unitsIn : List String) :
    List TokenUsdPriceResult :=
  let units := dedupFirst [] (unitsIn.filter fun u => !(u == ""))
  if units.isEmpty then []
  else
    let krakenRates :=
      if strMem "lovelace" units || strMem "BTC" units then getBaseUsdRates world else none
    match tokensQuery with
    | none => units.map fun unit => ⟨unit, none, none, some "Failed to query tokens table"⟩
    | some rows =>
      let defs := rows.filter fun d => d.is_active
      let krakenRaw :=
        (world.krakenPairs ((defs.filter fun d =>
          d.pricing_source == "kraken" && !(d.kraken_pair_query.getD "" == "")).filterMap
            fun d => d.kraken_pair_query)).getD []
      let cgRaw :=
        (world.coingeckoSimple ((defs.filter fun d =>
          d.pricing_source == "coingecko" && !(d.coingecko_id.getD "" == "")).filterMap
            fun d => d.coingecko_id)).getD []
      units.map (resolveUnit krakenRates defs krakenRaw cgRaw)

/-! ### Targets write boundary (`PUT /api/wallets/[walletId]/targets`) -/

/-- `String(t.unit || "").trim()`. -/
def strTrim (s : String) : String := ⟨trimChars s.data⟩

inductive PutResponse where
  | badRequest (msg : String)
  | serverError (msg : String)
  | ok
deriving DecidableEq, Repr

/-- The `cleaned` array of the PUT handler: trim units, then keep only
entries with a nonempty unit and a finite, nonnegative percentage (the
submitted `target_pct_points` is embedded as `Option ℚ`, `none` for a
non-finite `Number(...)` result). -/
def cleanedTargets (targets : List (String × Option ℚ)) : List (String × ℚ) :=
  targets.filterMap fun t =>
    match t.2 with
    | some v => if !(strTrim t.1 == "") && 0 ≤ v then some (strTrim t.1, v) else none
    | none => none

/-- The PUT branch of the targets handler, acting on the
`wallet_token_targets` rows `(wallet_id, unit, target_pct_points)`.
The upstream UUID check on `walletId` is not modelled; the error payload of
the sum rejection omits the interpolated `(got …)` suffix.  Delete-all then
insert; the insert hits `UNIQUE(wallet_id, unit)` exactly when `cleaned`
repeats a unit, and the delete is not rolled back in that case. -/
def putTargets (db : List (String × String × ℚ)) (walletId : String)
    (targets : List (String × Option ℚ)) : List (String × String × ℚ) × PutResponse :=
  if targets.isEmpty then (db, .badRequest "Missing targets")
  else
    let cleaned := cleanedTargets targets
    if cleaned.isEmpty then (db, .badRequest "No valid targets provided")
    else
      let sum := (cleaned.map Prod.snd).sum
      if 1 / 100 < |sum - 100| then (db, .badRequest "Targets must sum to 100")
      else
        let afterDelete := db.filter fun r => !(r.1 == walletId)
        if (cleaned.map Prod.fst).Nodup then
          (afterDelete ++ cleaned.map fun t => (walletId, t.1, t.2), .ok)
        else (afterDelete, .serverError "Failed to save targets")

/-! ### Claims about the Rebalance Planner -/

/-- C1: with totalValue 1000, current values A:700/B:300, targets 50/50 and
unit prices, the planner emits the single suggestion swapping 200 A for
200 B at trade value 200; with a 100 bps fee only `toQtyHuman` drops, to
198. -/
theorem C1_greedy_and_fee_examples :
    (computeRebalancePlan ⟨1000, [("A", 700), ("B", 300)], [("A", 50), ("B", 50)],
        [("A", some 1), ("B", some 1)], 0⟩).suggestions
      = [⟨"A", "B", 200, 200, 200⟩] ∧
    (computeRebalancePlan ⟨1000, [("A", 700), ("B", 300)], [("A", 50), ("B", 50)],
        [("A", some 1), ("B", some 1)], 100⟩).suggestions
      = [⟨"A", "B", 200, 198, 200⟩] := by
  constructor <;>
  · iterate 8
      (try simp [String.reduceEq, computeRebalancePlan, planAllUnits, planDeltas,
        planAllocations, planOverweight, planUnderweight, planFee, sweepGo, sortDesc,
        sortAsc, insertDesc, insertAsc, dedupFirst, strMem, alistLookup, priceLookup,
        priceMissing, planEps, roundDp])
      (try norm_num [computeRebalancePlan, planAllUnits, planDeltas,
        planAllocations, planOverweight, planUnderweight, planFee, sweepGo, sortDesc,
        sortAsc, insertDesc, insertAsc, dedupFirst, strMem, alistLookup, priceLookup,
        priceMissing, planEps, roundDp])

/-- C4: whenever `totalValueUsd ≤ 0` (over `ℚ` every number is finite, so
the `!Number.isFinite` disjunct of the source guard is vacuous), the planner
returns the empty plan with exactly the sentinel note, before any division
is reached. -/
theorem C4_zero_total_guard (p : PlanParams) (h : p.totalValueUsd ≤ 0) :
    computeRebalancePlan p =
      ⟨[], [], ["Portfolio total value is zero; cannot rebalance."]⟩ := by
  simp [computeRebalancePlan, h]

theorem C4_zero_total_guard_witness :
    computeRebalancePlan ⟨0, [("A", 5)], [("A", 100)], [("A", some 1)], 30⟩ =
      ⟨[], [], ["Portfolio total value is zero; cannot rebalance."]⟩ :=
  C4_zero_total_guard _ (by norm_num)

theorem sweepGo_fuel_irrelevant (prices : List (String × Option ℚ)) (fee : ℚ) :
    ∀ (fuel fuel' : ℕ) (over under : List DeltaEntry),
      over.length + under.length ≤ fuel → over.length + under.length ≤ fuel' →
      sweepGo prices fee fuel over under = sweepGo prices fee fuel' over under := by
  intro fuel
  induction fuel with
  | zero =>
    intro fuel' over under h h'
    match over, under with
    | [], u => simp [sweepGo]
    | o :: os, u => simp at h
  | succ n ih =>
    intro fuel' over under h h'
    match over, under with
    | [], u => simp [sweepGo]
    | o :: os, [] => simp [sweepGo]
    | f :: fs, t :: ts =>
      cases fuel' with
      | zero => simp at h'
      | succ m =>
        simp only [List.length_cons] at h h'
        have step1 : ∀ (A B : List DeltaEntry) (note : String),
            A.length + B.length ≤ n → A.length + B.length ≤ m →
            ((sweepGo prices fee n A B).1, note :: (sweepGo prices fee n A B).2) =
              ((sweepGo prices fee m A B).1, note :: (sweepGo prices fee m A B).2) := by
          intro A B note hA hB
          rw [ih m A B hA hB]
        have step2 : ∀ (A B : List DeltaEntry) (sug : RebalanceSuggestion),
            A.length + B.length ≤ n → A.length + B.length ≤ m →
            (sug :: (sweepGo prices fee n A B).1, (sweepGo prices fee n A B).2) =
              (sug :: (sweepGo prices fee m A B).1, (sweepGo prices fee m A B).2) := by
          intro A B sug hA hB
          rw [ih m A B hA hB]
        simp only [sweepGo]
        split_ifs with h1 h2 h3 h4 h5 h6
        all_goals try rfl
        all_goals try (apply step1 <;> ((try simp only [List.length_cons]); omega))
        all_goals try (apply step2 <;> ((try simp only [List.length_cons]); omega))
        all_goals try (simp only [Bool.or_eq_true] at h2; rcases h2 with h2 | h2 <;> simp [h2] at *)
        all_goals
          exfalso
          rename_i h5 h6
          have hEps : (0 : ℚ) < planEps := by norm_num [planEps]
          rcases min_choice f.deltaUsd (-t.deltaUsd) with hm | hm
          exacts [h5 (by rw [hm]; linarith), h6 (by rw [hm]; linarith)]

/-- C3: the two-pointer sweep advances at least one pointer per iteration, so
its result is the same under any sufficient fuel — in particular the fuel
`over.length + under.length` used by `computeRebalancePlan` runs the source's
`while` loop to completion on every input (no infinite loop); and on the
concrete input with overweight delta +100 on A, underweight delta −100 on B
and no prices at all, the planner returns no suggestions together with the
missing-price note and the fallback note. -/
theorem C3_planner_terminates_and_missing_price_example :
    (∀ (prices : List (String × Option ℚ)) (fee : ℚ) (fuel fuel' : ℕ)
        (over under : List DeltaEntry),
        over.length + under.length ≤ fuel → over.length + under.length ≤ fuel' →
        sweepGo prices fee fuel over under = sweepGo prices fee fuel' over under) ∧
    ((computeRebalancePlan ⟨200, [("A", 150), ("B", 50)], [("A", 25), ("B", 75)],
        [], 30⟩).suggestions = [] ∧
      (computeRebalancePlan ⟨200, [("A", 150), ("B", 50)], [("A", 25), ("B", 75)],
        [], 30⟩).notes =
        ["Missing USD price for A and B; cannot suggest swap for this leg.",
         "No actionable swap suggestions (already balanced or missing pricing)."]) := by
  refine ⟨sweepGo_fuel_irrelevant, ?_, ?_⟩ <;>
  · iterate 8
      (try simp [String.reduceEq, computeRebalancePlan, planAllUnits, planDeltas,
        planAllocations, planOverweight, planUnderweight, planFee, sweepGo, sortDesc,
        sortAsc, insertDesc, insertAsc, dedupFirst, strMem, alistLookup, priceLookup,
        priceMissing, planEps, roundDp])
      (try norm_num [computeRebalancePlan, planAllUnits, planDeltas,
        planAllocations, planOverweight, planUnderweight, planFee, sweepGo, sortDesc,
        sortAsc, insertDesc, insertAsc, dedupFirst, strMem, alistLookup, priceLookup,
        priceMissing, planEps, roundDp])

theorem C3_planner_terminates_witness :
    sweepGo [] 0 2 [⟨"A", 150, 50, 100⟩] [⟨"B", 50, 150, -100⟩]
      = sweepGo [] 0 9 [⟨"A", 150, 50, 100⟩] [⟨"B", 50, 150, -100⟩] :=
  C3_planner_terminates_and_missing_price_example.1 [] 0 2 9 _ _ (by norm_num) (by norm_num)

theorem roundDp6_le_add_half (x : ℚ) : roundDp x 6 ≤ x + 1 / 2000000 := by
  have h : ((⌊x * 10 ^ 6 + 1 / 2⌋ : ℤ) : ℚ) ≤ x * 10 ^ 6 + 1 / 2 := Int.floor_le _
  simp only [roundDp]
  norm_num at h ⊢
  linarith

theorem mapDelta_sum_nonneg (l : List DeltaEntry) (h : ∀ e ∈ l, 0 ≤ e.deltaUsd) :
    0 ≤ (l.map DeltaEntry.deltaUsd).sum := by
  induction l with
  | nil => simp
  | cons a as ihl =>
    simp only [List.map_cons, List.sum_cons]
    have ha := h a (by simp)
    have has := ihl fun e he => h e (by simp [he])
    linarith

theorem insertDesc_map_sum (a : DeltaEntry) (l : List DeltaEntry) :
    ((insertDesc a l).map DeltaEntry.deltaUsd).sum =
      a.deltaUsd + (l.map DeltaEntry.deltaUsd).sum := by
  induction l with
  | nil => simp [insertDesc]
  | cons b bs ihl =>
    simp only [insertDesc]
    split_ifs with hc
    · simp
    · simp only [List.map_cons, List.sum_cons, ihl]
      ring

theorem sortDesc_map_sum (l : List DeltaEntry) :
    ((sortDesc l).map DeltaEntry.deltaUsd).sum = (l.map DeltaEntry.deltaUsd).sum := by
  induction l with
  | nil => rfl
  | cons a as ihl => simp [sortDesc, insertDesc_map_sum, ihl]

theorem mem_insertDesc (x a : DeltaEntry) (l : List DeltaEntry)
    (h : x ∈ insertDesc a l) : x = a ∨ x ∈ l := by
  induction l with
  | nil => simpa [insertDesc] using h
  | cons b bs ihl =>
    by_cases hc : b.deltaUsd ≤ a.deltaUsd
    · rw [show insertDesc a (b :: bs) = a :: b :: bs by simp [insertDesc, hc]] at h
      simpa using h
    · rw [show insertDesc a (b :: bs) = b :: insertDesc a bs by simp [insertDesc, hc]] at h
      rcases List.mem_cons.mp h with h | h
      · simp [h]
      · rcases ihl h with h | h
        · simp [h]
        · simp [h]

theorem mem_sortDesc (x : DeltaEntry) (l : List DeltaEntry) (h : x ∈ sortDesc l) :
    x ∈ l := by
  induction l generalizing x with
  | nil => simpa [sortDesc] using h
  | cons a as ihl =>
    simp only [sortDesc] at h
    rcases mem_insertDesc x a (sortDesc as) h with h | h
    · simp [h]
    · simp [ihl x h]

theorem filterOverweight_sum_le (l : List DeltaEntry) :
    ((l.filter fun d => planEps < d.deltaUsd).map DeltaEntry.deltaUsd).sum ≤
      (l.map fun d => max 0 d.deltaUsd).sum := by
  induction l with
  | nil => simp
  | cons a as ihl =>
    simp only [List.filter_cons]
    split_ifs with hc
    · simp only [List.map_cons, List.sum_cons]
      have : a.deltaUsd ≤ max 0 a.deltaUsd := le_max_right _ _
      linarith
    · simp only [List.map_cons, List.sum_cons]
      have : (0 : ℚ) ≤ max 0 a.deltaUsd := le_max_left _ _
      linarith

theorem sweepGo_tradeSum_le (prices : List (String × Option ℚ)) (fee : ℚ) :
    ∀ (fuel : ℕ) (over under : List DeltaEntry),
      (∀ e ∈ over, 0 ≤ e.deltaUsd) →
      sugTradeSum (sweepGo prices fee fuel over under).1 ≤
        (over.map DeltaEntry.deltaUsd).sum +
          ((sweepGo prices fee fuel over under).1.length : ℚ) / 2000000 := by
  intro fuel
  induction fuel with
  | zero =>
    intro over under h
    match over, under with
    | [], u => simp [sweepGo, sugTradeSum]
    | o :: os, [] =>
      simpa [sweepGo, sugTradeSum] using mapDelta_sum_nonneg (o :: os) h
    | o :: os, u :: us =>
      simpa [sweepGo, sugTradeSum] using mapDelta_sum_nonneg (o :: os) h
  | succ n ih =>
    intro over under h
    match over, under with
    | [], u => simp [sweepGo, sugTradeSum]
    | o :: os, [] =>
      simpa [sweepGo, sugTradeSum] using mapDelta_sum_nonneg (o :: os) h
    | f :: fs, t :: ts =>
      have hf := h f (by simp)
      have hfs : ∀ e ∈ fs, 0 ≤ e.deltaUsd := fun e he => h e (by simp [he])
      have hnn := mapDelta_sum_nonneg (f :: fs) h
      have hmin1 : min f.deltaUsd (-t.deltaUsd) ≤ f.deltaUsd := min_le_left _ _
      have hr := roundDp6_le_add_half (min f.deltaUsd (-t.deltaUsd))
      have hplus : ∀ e ∈ ({ f with deltaUsd := f.deltaUsd - min f.deltaUsd (-t.deltaUsd) } :: fs),
          0 ≤ e.deltaUsd := by
        intro e he
        rcases List.mem_cons.mp he with rfl | he
        · dsimp only
          linarith
        · exact hfs e he
      have k1 := ih fs ts hfs
      have k2 := ih fs (t :: ts) hfs
      have k3 := ih fs ({ t with deltaUsd := t.deltaUsd + min f.deltaUsd (-t.deltaUsd) } :: ts) hfs
      have k4 := ih (f :: fs) ts h
      have k5 := ih (f :: fs) (t :: ts) h
      have k6 := ih (f :: fs) ({ t with deltaUsd := t.deltaUsd + min f.deltaUsd (-t.deltaUsd) } :: ts) h
      have k7 := ih ({ f with deltaUsd := f.deltaUsd - min f.deltaUsd (-t.deltaUsd) } :: fs) ts hplus
      have k8 := ih ({ f with deltaUsd := f.deltaUsd - min f.deltaUsd (-t.deltaUsd) } :: fs) (t :: ts) hplus
      have k9 := ih ({ f with deltaUsd := f.deltaUsd - min f.deltaUsd (-t.deltaUsd) } :: fs)
        ({ t with deltaUsd := t.deltaUsd + min f.deltaUsd (-t.deltaUsd) } :: ts) hplus
      simp only [sweepGo]
      split_ifs with h1 h2 h3 h4 h5 h6 <;>
      · try simp only [sugTradeSum, List.map_cons, List.sum_cons, List.map_nil,
          List.sum_nil, List.length_cons, List.length_nil] at k1 k2 k3 k4 k5 k6 k7 k8 k9 hnn ⊢
        try dsimp only at *
        try push_cast at *
        linarith

theorem maxDelta_sum_nonneg (l : List DeltaEntry) :
    0 ≤ (l.map fun d => max 0 d.deltaUsd).sum := by
  induction l with
  | nil => simp
  | cons a as ihl =>
    simp only [List.map_cons, List.sum_cons]
    have : (0 : ℚ) ≤ max 0 a.deltaUsd := le_max_left _ _
    linarith

/-- C2 (amended): the sum of the (6-dp half-up rounded) `tradeValueUsd`
fields of the emitted suggestions exceeds the total overweight value
`Σ max 0 (currentValue − targetPct/100 × total)` by at most the rounding
slack of 5·10⁻⁷ per suggestion; the un-rounded trade values alone never
exceed it. -/
theorem C2_tradeValue_sum_bound (p : PlanParams) :
    sugTradeSum (computeRebalancePlan p).suggestions ≤
      overweightSum p + ((computeRebalancePlan p).suggestions.length : ℚ) / 2000000 := by
  have hover : (0 : ℚ) ≤ overweightSum p := maxDelta_sum_nonneg _
  by_cases hg : p.totalValueUsd ≤ 0
  · simp only [computeRebalancePlan, if_pos hg, sugTradeSum]
    simp
    linarith
  · have hnn : ∀ e ∈ planOverweight p, 0 ≤ e.deltaUsd := by
      intro e he
      have he2 := mem_sortDesc e _ he
      have he3 := (List.mem_filter.mp he2).2
      have : planEps < e.deltaUsd := by simpa using he3
      have : (0 : ℚ) < planEps := by norm_num [planEps]
      linarith
    have hkey := sweepGo_tradeSum_le p.prices (planFee p)
      ((planOverweight p).length + (planUnderweight p).length)
      (planOverweight p) (planUnderweight p) hnn
    have hs : (computeRebalancePlan p).suggestions =
        (sweepGo p.prices (planFee p)
          ((planOverweight p).length + (planUnderweight p).length)
          (planOverweight p) (planUnderweight p)).1 := by
      simp [computeRebalancePlan, hg]
    rw [hs]
    have h1 : ((planOverweight p).map DeltaEntry.deltaUsd).sum =
        (((planDeltas p).filter fun d => planEps < d.deltaUsd).map DeltaEntry.deltaUsd).sum :=
      sortDesc_map_sum _
    have h2 := filterOverweight_sum_le (planDeltas p)
    have h3 : overweightSum p = ((planDeltas p).map fun d => max 0 d.deltaUsd).sum := rfl
    linarith

/-- C2 fails as literally stated: with totalValue 1, a single overweight unit
A worth 6·10⁻⁷ against a target of 0 and an underweight B, the suggestion's
`tradeValueUsd` is rounded up to 10⁻⁶, which exceeds the overweight-delta sum
6·10⁻⁷. -/
theorem C2_tradeValue_sum_counterexample :
    ¬ (sugTradeSum (computeRebalancePlan ⟨1, [("A", 3 / 5000000)], [("B", 100)],
          [("A", some 1), ("B", some 1)], 0⟩).suggestions ≤
        overweightSum ⟨1, [("A", 3 / 5000000)], [("B", 100)],
          [("A", some 1), ("B", some 1)], 0⟩) := by
  iterate 8
    (try simp [String.reduceEq, computeRebalancePlan, planAllUnits, planDeltas,
      planAllocations, planOverweight, planUnderweight, planFee, sweepGo, sortDesc,
      sortAsc, insertDesc, insertAsc, dedupFirst, strMem, alistLookup, priceLookup,
      priceMissing, planEps, roundDp, sugTradeSum, overweightSum])
    (try norm_num [computeRebalancePlan, planAllUnits, planDeltas,
      planAllocations, planOverweight, planUnderweight, planFee, sweepGo, sortDesc,
      sortAsc, insertDesc, insertAsc, dedupFirst, strMem, alistLookup, priceLookup,
      priceMissing, planEps, roundDp, sugTradeSum, overweightSum])

/-- C6: a target unit is reported as a deviation exactly when
`|currentPct − targetPct| ≥ threshold` (equality triggers); concretely
currentPct 60 against target 50 triggers at threshold 10 but not at
threshold 10.01. -/
theorem C6_deviation_threshold_boundary :
    (∀ (currentPct targetsMap : List (String × ℚ)) (threshold : ℚ) (u : String) (tp : ℚ),
        (u, tp) ∈ targetsMap →
        ((⟨u, (alistLookup currentPct u).getD 0, tp,
            (alistLookup currentPct u).getD 0 - tp⟩ : Deviation) ∈
            computeDeviations currentPct targetsMap threshold ↔
          threshold ≤ |(alistLookup currentPct u).getD 0 - tp|)) ∧
    computeDeviations [("A", 60)] [("A", 50)] 10 = [⟨"A", 60, 50, 10⟩] ∧
    computeDeviations [("A", 60)] [("A", 50)] (1001 / 100) = [] := by
  refine ⟨?_, ?_, ?_⟩
  · intro cur tgts thr u tp hmem
    constructor
    · intro hd
      simp only [computeDeviations] at hd
      rcases List.mem_filterMap.mp hd with ⟨p, hp, hpe⟩
      by_cases hc : thr ≤ |(alistLookup cur p.1).getD 0 - p.2|
      · rw [if_pos hc] at hpe
        obtain ⟨h1, -, h3, -⟩ := Deviation.mk.injEq .. ▸ Option.some.injEq .. ▸ hpe
        subst h1
        subst h3
        exact hc
      · rw [if_neg hc] at hpe
        exact absurd hpe (by simp)
    · intro hc
      simp only [computeDeviations]
      exact List.mem_filterMap.mpr ⟨(u, tp), hmem, by rw [if_pos hc]⟩
  · iterate 4
      (try simp [String.reduceEq, computeDeviations, alistLookup, List.filterMap_cons])
      (try norm_num [computeDeviations, alistLookup, List.filterMap_cons])
  · iterate 4
      (try simp [String.reduceEq, computeDeviations, alistLookup, List.filterMap_cons])
      (try norm_num [computeDeviations, alistLookup, List.filterMap_cons])

theorem C6_deviation_threshold_witness :
    (⟨"A", 60, 50, 10⟩ : Deviation) ∈ computeDeviations [("A", 60)] [("A", 50)] 10 := by
  have h := (C6_deviation_threshold_boundary.1 [("A", 60)] [("A", 50)] 10 "A" 50
    (by simp)).mpr (by norm_num [alistLookup])
  norm_num [alistLookup] at h
  exact h

/-- C9: `applyDecimals` is total by construction; a raw quantity whose
`Number(...)` parse is non-finite yields 0, and when `decimals` is absent or
`≤ 0` the parsed value is returned unchanged, with no division applied. -/
theorem C9_applyDecimals_total (s : String) (d : Option ℤ) :
    (jsNumber s = none → applyDecimals s d = 0) ∧
    (∀ q, jsNumber s = some q → (d = none ∨ ∃ z, d = some z ∧ z ≤ 0) →
      applyDecimals s d = q) := by
  constructor
  · intro h
    simp [applyDecimals, h]
  · intro q hq hd
    rcases hd with rfl | ⟨z, rfl, hz⟩
    · simp [applyDecimals, hq]
    · simp [applyDecimals, hq, if_pos hz]

theorem C9_applyDecimals_witness :
    applyDecimals "abc" (some 6) = 0 ∧ applyDecimals "150" none = 150 ∧
      applyDecimals "150" (some 0) = 150 := by
  have habc : jsNumber "abc" = none := by
    have h : parseJsDecimal "abc".data = none := by decide
    simp [jsNumber, h]
  have h150 : jsNumber "150" = some 150 := by
    have h : parseJsDecimal "150".data = some (150, 0) := by decide
    norm_num [jsNumber, h]
  exact ⟨(C9_applyDecimals_total "abc" (some 6)).1 habc,
    (C9_applyDecimals_total "150" none).2 150 h150 (Or.inl rfl),
    (C9_applyDecimals_total "150" (some 0)).2 150 h150 (Or.inr ⟨0, rfl, le_refl 0⟩)⟩

theorem scaledPct_eq (r t v : ℚ) (hr : 0 < r) :
    (if 0 < t / r then v / r / (t / r) * 100 else 0) =
      (if 0 < t then v / t * 100 else 0) := by
  by_cases ht : 0 < t
  · rw [if_pos ht, if_pos (div_pos ht hr)]
    have hr' : r ≠ 0 := ne_of_gt hr
    have ht' : t ≠ 0 := ne_of_gt ht
    field_simp
  · rw [if_neg ht]
    have h1 : t / r ≤ 0 := by
      rw [div_eq_mul_inv]
      exact mul_nonpos_iff.mpr (Or.inr ⟨le_of_not_lt ht, inv_nonneg.mpr hr.le⟩)
    rw [if_neg (not_lt.mpr h1)]

/-- C10: under the `ada` (resp. `btc`) basis, when the ADA (resp. BTC) USD
reference price is present and positive, the reference price divides both
the per-unit value and the denominator and cancels, so every `currentPct`
equals the one computed under the `usd` basis, and the deviation report is
unchanged. -/
theorem C10_basis_invariance (targetsMap qty priceUsd : List (String × ℚ)) (thr : ℚ) :
    (∀ a, alistLookup priceUsd "lovelace" = some a → 0 < a →
      computeCurrentPct .ada targetsMap qty priceUsd =
        computeCurrentPct .usd targetsMap qty priceUsd ∧
      computeDeviations (computeCurrentPct .ada targetsMap qty priceUsd) targetsMap thr =
        computeDeviations (computeCurrentPct .usd targetsMap qty priceUsd) targetsMap thr) ∧
    (∀ b, alistLookup priceUsd "BTC" = some b → 0 < b →
      computeCurrentPct .btc targetsMap qty priceUsd =
        computeCurrentPct .usd targetsMap qty priceUsd ∧
      computeDeviations (computeCurrentPct .btc targetsMap qty priceUsd) targetsMap thr =
        computeDeviations (computeCurrentPct .usd targetsMap qty priceUsd) targetsMap thr) := by
  constructor
  · intro a ha ha0
    have hpct : computeCurrentPct .ada targetsMap qty priceUsd =
        computeCurrentPct .usd targetsMap qty priceUsd := by
      simp only [computeCurrentPct, convertByBasis, ha, if_neg (ne_of_gt ha0)]
      exact List.map_congr_left fun p _ => by rw [scaledPct_eq _ _ _ ha0]
    exact ⟨hpct, by rw [hpct]⟩
  · intro b hb hb0
    have hpct : computeCurrentPct .btc targetsMap qty priceUsd =
        computeCurrentPct .usd targetsMap qty priceUsd := by
      simp only [computeCurrentPct, convertByBasis, hb, if_neg (ne_of_gt hb0)]
      exact List.map_congr_left fun p _ => by rw [scaledPct_eq _ _ _ hb0]
    exact ⟨hpct, by rw [hpct]⟩

theorem C10_basis_invariance_witness :
    computeCurrentPct .ada [("A", 50)] [("A", 5), ("lovelace", 1)] [("lovelace", 2), ("A", 4)] =
      computeCurrentPct .usd [("A", 50)] [("A", 5), ("lovelace", 1)] [("lovelace", 2), ("A", 4)] :=
  ((C10_basis_invariance [("A", 50)] [("A", 5), ("lovelace", 1)] [("lovelace", 2), ("A", 4)] 10).1
    2 (by simp [alistLookup]) (by norm_num)).1

theorem resolveUnit_unit (kr : Option KrakenUsdRates) (defs : List TokenDefinition)
    (kraw craw : List (String × ℚ)) (u : String) :
    (resolveUnit kr defs kraw craw u).unit = u := by
  unfold resolveUnit
  split_ifs <;> (repeat' split) <;> rfl

theorem find_map_strMem (g : String → TokenUsdPriceResult)
    (hg : ∀ u, (g u).unit = u) (k : String) :
    ∀ l : List String, strMem k l = true →
      (l.map g).find? (fun x => x.unit == k) = some (g k) := by
  intro l
  induction l with
  | nil => intro h; simp [strMem] at h
  | cons x xs ihl =>
    intro h
    by_cases hx : x = k
    · subst hx
      rw [List.map_cons, List.find?_cons_of_pos _ (by simp [hg])]
    · have h' : strMem k xs = true := by
        simp only [strMem] at h
        rwa [if_neg hx] at h
      rw [List.map_cons, List.find?_cons_of_neg _ (by simp [hg, hx]), ihl h']

theorem resolveUnit_lovelace (kr : Option KrakenUsdRates) (defs : List TokenDefinition)
    (kraw craw : List (String × ℚ)) :
    resolveUnit kr defs kraw craw "lovelace" =
      (match kr with
        | some r => ⟨"lovelace", some r.adaUsd, some "kraken:ADAUSD", none⟩
        | none => ⟨"lovelace", none, none, some "Failed to fetch ADAUSD from Kraken"⟩) := by
  cases kr <;> simp [resolveUnit]

theorem resolveUnit_btc (kr : Option KrakenUsdRates) (defs : List TokenDefinition)
    (kraw craw : List (String × ℚ)) :
    resolveUnit kr defs kraw craw "BTC" =
      (match kr with
        | some r => ⟨"BTC", some r.btcUsd, some "kraken:BTCUSD", none⟩
        | none => ⟨"BTC", none, none, some "Failed to fetch BTCUSD from Kraken"⟩) := by
  cases kr <;> simp [resolveUnit]

/-- C7: whenever the (cleaned, deduplicated) requested unit set contains
`lovelace` or `BTC`, the base USD rates are attempted via the Kraken ticker
first (i), with the CoinGecko aggregator as fallback when the Kraken call
fails (ii); when both fail, `getBaseUsdRates` is `none` (iii) and the base
unit's row — produced regardless of the token-definition rows — carries
`priceUsd = none` with an error string (iv)/(v); no exception escapes
(`getTokenUsdPrices` is a total function). -/
theorem C7_base_units_always_resolved (world : PriceFetchWorld)
    (rows : List TokenDefinition) (unitsIn : List String) :
    (∀ r, world.krakenAdaBtc = some r → getBaseUsdRates world = some r) ∧
    (∀ cg ada btc, world.krakenAdaBtc = none →
      world.coingeckoSimple ["bitcoin", "cardano"] = some cg →
      alistLookup cg "cardano" = some ada → alistLookup cg "bitcoin" = some btc →
      0 < ada → 0 < btc → getBaseUsdRates world = some ⟨ada, btc⟩) ∧
    (world.krakenAdaBtc = none → world.coingeckoSimple ["bitcoin", "cardano"] = none →
      getBaseUsdRates world = none) ∧
    (strMem "lovelace" (dedupFirst [] (unitsIn.filter fun u => !(u == ""))) = true →
      (getTokenUsdPrices world (some rows) unitsIn).find? (fun x => x.unit == "lovelace") =
        some (match getBaseUsdRates world with
          | some r => ⟨"lovelace", some r.adaUsd, some "kraken:ADAUSD", none⟩
          | none => ⟨"lovelace", none, none, some "Failed to fetch ADAUSD from Kraken"⟩)) ∧
    (strMem "BTC" (dedupFirst [] (unitsIn.filter fun u => !(u == ""))) = true →
      (getTokenUsdPrices world (some rows) unitsIn).find? (fun x => x.unit == "BTC") =
        some (match getBaseUsdRates world with
          | some r => ⟨"BTC", some r.btcUsd, some "kraken:BTCUSD", none⟩
          | none => ⟨"BTC", none, none, some "Failed to fetch BTCUSD from Kraken"⟩)) := by
  refine ⟨?_, ?_, ?_, ?_, ?_⟩
  · intro r hr
    simp [getBaseUsdRates, hr]
  · intro cg ada btc h1 h2 h3 h4 h5 h6
    simp [getBaseUsdRates, h1, h2, h3, h4, h5, h6]
  · intro h1 h2
    simp [getBaseUsdRates, h1, h2]
  · intro h
    have hne : (dedupFirst [] (unitsIn.filter fun u => !(u == ""))).isEmpty = false := by
      cases hU : dedupFirst [] (unitsIn.filter fun u => !(u == "")) with
      | nil => rw [hU] at h; simp [strMem] at h
      | cons a as => simp
    simp only [getTokenUsdPrices, hne, Bool.false_eq_true, if_false, h, Bool.true_or, if_true]
    rw [find_map_strMem _ (resolveUnit_unit _ _ _ _) _ _ h, resolveUnit_lovelace]
  · intro h
    have hne : (dedupFirst [] (unitsIn.filter fun u => !(u == ""))).isEmpty = false := by
      cases hU : dedupFirst [] (unitsIn.filter fun u => !(u == "")) with
      | nil => rw [hU] at h; simp [strMem] at h
      | cons a as => simp
    simp only [getTokenUsdPrices, hne, Bool.false_eq_true, if_false, h, Bool.or_true, if_true]
    rw [find_map_strMem _ (resolveUnit_unit _ _ _ _) _ _ h, resolveUnit_btc]

theorem C7_base_units_witness :
    getBaseUsdRates ⟨some ⟨1, 2⟩, fun _ => none, fun _ => none⟩ = some ⟨1, 2⟩ ∧
    (getTokenUsdPrices ⟨some ⟨1, 2⟩, fun _ => none, fun _ => none⟩ (some [])
        ["lovelace"]).find? (fun x => x.unit == "lovelace") =
      some ⟨"lovelace", some 1, some "kraken:ADAUSD", none⟩ := by
  have h1 := (C7_base_units_always_resolved ⟨some ⟨1, 2⟩, fun _ => none, fun _ => none⟩
    [] ["lovelace"]).1 ⟨1, 2⟩ rfl
  have h4 := (C7_base_units_always_resolved ⟨some ⟨1, 2⟩, fun _ => none, fun _ => none⟩
    [] ["lovelace"]).2.2.2.1 (by simp [dedupFirst, strMem, List.filter_cons])
  rw [h1] at h4
  exact ⟨h1, h4⟩

/-- C8 (amended): the sum-to-100 check (0.01 tolerance) rejects at the write
boundary before any row is deleted or inserted; but entries with an empty
unit, non-finite or negative percentage are silently filtered out before
that check rather than rejected, and duplicate units are not validated by
the handler at all — a duplicate-unit write passes validation, deletes the
wallet's existing rows, and only then fails at the insert on
`UNIQUE(wallet_id, unit)`, leaving the deletion in place. -/
theorem C8_targets_write_validation (db : List (String × String × ℚ)) (walletId : String)
    (targets : List (String × Option ℚ)) :
    (targets ≠ [] → cleanedTargets targets ≠ [] →
      1 / 100 < |((cleanedTargets targets).map Prod.snd).sum - 100| →
      putTargets db walletId targets = (db, .badRequest "Targets must sum to 100")) ∧
    putTargets [("w1", "A", 50)] "w1" [("A", some 50), ("A", some 50)] =
      ([], .serverError "Failed to save targets") := by
  constructor
  · intro h1 h2 h3
    match targets, h1 with
    | t :: ts, _ =>
      simp only [putTargets]
      rw [if_neg (by simp), if_neg (by simpa using h2), if_pos h3]
  · have hA : strTrim "A" = "A" := by decide
    iterate 6
      (try simp [String.reduceEq, putTargets, cleanedTargets, hA,
        List.filterMap_cons, List.filter_cons])
      (try norm_num [putTargets, cleanedTargets, hA, List.filterMap_cons, List.filter_cons])

theorem C8_targets_write_witness :
    putTargets [("w", "X", 1)] "w" [("A", some 50)] =
      ([("w", "X", 1)], .badRequest "Targets must sum to 100") :=
  (C8_targets_write_validation [("w", "X", 1)] "w" [("A", some 50)]).1 (by simp)
    (by iterate 3
          (try simp [String.reduceEq, cleanedTargets, List.filterMap_cons,
            show strTrim "A" = "A" from by decide])
          (try norm_num [cleanedTargets, List.filterMap_cons]))
    (by iterate 3
          (try simp [String.reduceEq, cleanedTargets, List.filterMap_cons,
            show strTrim "A" = "A" from by decide])
          (try norm_num [cleanedTargets, List.filterMap_cons]))

/-- C8 fails as stated: a PUT whose submitted targets contain a negative
percentage is not rejected — the negative entry is silently dropped by the
`cleaned` filter, the remaining entries sum to 100, and the write succeeds. -/
theorem C8_targets_write_counterexample :
    putTargets [] "w1" [("A", some 60), ("B", some 40), ("C", some (-5))] =
      ([("w1", "A", 60), ("w1", "B", 40)], .ok) := by
  have hA : strTrim "A" = "A" := by decide
  have hB : strTrim "B" = "B" := by decide
  have hC : strTrim "C" = "C" := by decide
  iterate 6
    (try simp [String.reduceEq, putTargets, cleanedTargets, hA, hB, hC,
      List.filterMap_cons, List.filter_cons])
    (try norm_num [putTargets, cleanedTargets, hA, hB, hC,
      List.filterMap_cons, List.filter_cons])

theorem countEvents_setDiscordStatus (events : List AlertEventRow) (i : ℕ) (b : Bool)
    (err : Option String) (w s : String) :
    countEvents (setDiscordStatus events i b err) w s = countEvents events w s := by
  induction events with
  | nil => rfl
  | cons e es ihl =>
    simp only [setDiscordStatus, List.map_cons] at *
    by_cases he : e.id = i
    · simp only [if_pos he, countEvents, List.filter_cons]
      split_ifs <;> simp_all [countEvents, setDiscordStatus]
    · simp only [if_neg he, countEvents, List.filter_cons]
      split_ifs <;> simp_all [countEvents, setDiscordStatus]

theorem countEvents_append_single (events : List AlertEventRow) (evt : AlertEventRow)
    (w s : String) :
    countEvents (events ++ [evt]) w s =
      countEvents events w s + (if evt.wallet_id = w ∧ evt.snapshot_id = s then 1 else 0) := by
  simp only [countEvents, List.filter_append, List.length_append]
  congr 1
  by_cases h : evt.wallet_id = w ∧ evt.snapshot_id = s
  · simp [List.filter_cons, h.1, h.2, if_pos h]
  · rw [if_neg h]
    have : (evt.wallet_id == w && evt.snapshot_id == s) = false := by
      rcases not_and_or.mp h with h1 | h1 <;> simp [h1]
    simp [List.filter_cons, this]

theorem any_iff_countEvents (events : List AlertEventRow) (w s : String) :
    (events.any fun e => e.wallet_id == w && e.snapshot_id == s) = true ↔
      countEvents events w s ≠ 0 := by
  rw [List.any_eq_true]
  simp only [countEvents, ne_eq, List.length_eq_zero, List.filter_eq_nil_iff]
  constructor
  · rintro ⟨x, hx, hp⟩ hall
    exact absurd hp (by simpa using hall x hx)
  · intro h
    by_contra hn
    push_neg at hn
    exact h fun a ha => by simpa using hn a ha

theorem processWalletCore_spec (wh ok : Bool) (db : AlertDb) (w : WalletRow)
    (tg : List (String × ℚ)) (s : SnapshotRow) :
    processWalletCore wh ok db w tg s = (db, 0) ∨
    ((processWalletCore wh ok db w tg s).1.targets = db.targets ∧
     (processWalletCore wh ok db w tg s).1.snapshots = db.snapshots ∧
     (processWalletCore wh ok db w tg s).2 ≤ 1 ∧
     ∀ wid sid, countEvents (processWalletCore wh ok db w tg s).1.alertEvents wid sid =
       countEvents db.alertEvents wid sid +
         (if w.id = wid ∧ s.id = sid then 1 else 0)) := by
  simp only [processWalletCore]
  split_ifs with hd hw hk
  · exact Or.inl rfl
  · refine Or.inr ⟨rfl, rfl, by norm_num, ?_⟩
    intro wid sid
    simp only [countEvents_setDiscordStatus, countEvents_append_single]
  · refine Or.inr ⟨rfl, rfl, by norm_num, ?_⟩
    intro wid sid
    simp only [countEvents_setDiscordStatus, countEvents_append_single]
  · refine Or.inr ⟨rfl, rfl, by norm_num, ?_⟩
    intro wid sid
    simp only [countEvents_append_single]

theorem processWalletLib_spec (wh ok : Bool) (bucket : Option String) (db : AlertDb)
    (w : WalletRow) :
    processWalletLib wh ok bucket db w = (db, 0) ∨
    (∃ s, selectSnapshot db w.id bucket = some s ∧
      countEvents db.alertEvents w.id s.id = 0 ∧
      (processWalletLib wh ok bucket db w).1.targets = db.targets ∧
      (processWalletLib wh ok bucket db w).1.snapshots = db.snapshots ∧
      (processWalletLib wh ok bucket db w).2 ≤ 1 ∧
      ∀ wid sid, countEvents (processWalletLib wh ok bucket db w).1.alertEvents wid sid =
        countEvents db.alertEvents wid sid + (if w.id = wid ∧ s.id = sid then 1 else 0)) := by
  simp only [processWalletLib]
  by_cases ht : (targetsFor db w.id).isEmpty
  · rw [if_pos ht]
    exact Or.inl rfl
  · rw [if_neg ht]
    cases hs : selectSnapshot db w.id bucket with
    | none => exact Or.inl rfl
    | some s =>
      dsimp only
      by_cases hg : (db.alertEvents.any fun e =>
          e.wallet_id == w.id && e.snapshot_id == s.id) = true
      · rw [if_pos hg]
        exact Or.inl rfl
      · rw [if_neg hg]
        have hz : countEvents db.alertEvents w.id s.id = 0 := by
          by_contra hzz
          exact hg ((any_iff_countEvents db.alertEvents w.id s.id).mpr hzz)
        rcases processWalletCore_spec wh ok db w (targetsFor db w.id) s with hL | ⟨hT, hS, hN, hC⟩
        · rw [hL]
          exact Or.inl rfl
        · exact Or.inr ⟨s, rfl, hz, hT, hS, hN, hC⟩

/-- C5 (amended): in `runThresholdAlerts` the alert-event existence check is
performed before any balance/price read or plan computation — when an event
for the selected (wallet, snapshot) pair already exists, the wallet is
skipped with the database unchanged and nothing sent (first conjunct) — so
two consecutive invocations for the same wallet create at most one new alert
event row for any (wallet, snapshot) pair and send at most one notification
(second conjunct).  The `check-thresholds` API handler lacks this gate (see
the counterexample). -/
theorem C5_alert_idempotency (wh ok : Bool) (bucket : Option String) (db : AlertDb)
    (w : WalletRow) :
    (∀ s, selectSnapshot db w.id bucket = some s → eventCount db w.id s.id ≠ 0 →
      processWalletLib wh ok bucket db w = (db, 0)) ∧
    (∀ wid sid,
      eventCount (processWalletLib wh ok bucket
          (processWalletLib wh ok bucket db w).1 w).1 wid sid ≤
        eventCount db wid sid + 1 ∧
      (processWalletLib wh ok bucket db w).2 +
        (processWalletLib wh ok bucket (processWalletLib wh ok bucket db w).1 w).2 ≤ 1) := by
  have gate : ∀ (db' : AlertDb) (s' : SnapshotRow),
      selectSnapshot db' w.id bucket = some s' →
      countEvents db'.alertEvents w.id s'.id ≠ 0 →
      processWalletLib wh ok bucket db' w = (db', 0) := by
    intro db' s' hs hc
    simp only [processWalletLib]
    by_cases ht : (targetsFor db' w.id).isEmpty
    · rw [if_pos ht]
    · rw [if_neg ht, hs]
      dsimp only
      rw [if_pos ((any_iff_countEvents db'.alertEvents w.id s'.id).mpr hc)]
  constructor
  · intro s hs hc
    exact gate db s hs hc
  · intro wid sid
    rcases processWalletLib_spec wh ok bucket db w with h1 | ⟨s, hs, hz, hT, hS, hN, hC⟩
    · rw [h1]
      rcases processWalletLib_spec wh ok bucket db w with h2 | ⟨s2, hs2, hz2, hT2, hS2, hN2, hC2⟩
      · rw [h2]
        simp [eventCount]
      · constructor
        · have := hC2 wid sid
          simp only [eventCount, this]
          split_ifs <;> omega
        · simpa using hN2
    · have hsel1 : selectSnapshot (processWalletLib wh ok bucket db w).1 w.id bucket =
          some s := by
        simp only [selectSnapshot] at hs ⊢
        rw [hS]
        exact hs
      have hcnt1 : countEvents (processWalletLib wh ok bucket db w).1.alertEvents
          w.id s.id ≠ 0 := by
        rw [hC w.id s.id, if_pos ⟨rfl, rfl⟩]
        omega
      have h2 := gate (processWalletLib wh ok bucket db w).1 s hsel1 hcnt1
      rw [h2]
      constructor
      · have := hC wid sid
        simp only [eventCount, this]
        split_ifs <;> omega
      · simpa using hN

theorem C5_alert_idempotency_witness :
    processWalletLib true true none
        ⟨[("w1", "A", 50)], [⟨"s1", "w1", "b1"⟩], [], [],
          [⟨0, "w1", "s1", 10, [], ⟨[], [], []⟩, false, none⟩]⟩
        ⟨"w1", none, "stake1x", .usd, 10, 0, true⟩ =
      (⟨[("w1", "A", 50)], [⟨"s1", "w1", "b1"⟩], [], [],
          [⟨0, "w1", "s1", 10, [], ⟨[], [], []⟩, false, none⟩]⟩, 0) :=
  (C5_alert_idempotency true true none _ _).1 ⟨"s1", "w1", "b1"⟩
    (by simp [selectSnapshot, latestSnapshot, List.filter_cons])
    (by simp [eventCount, countEvents, List.filter_cons])

set_option maxHeartbeats 4000000 in
/-- C5 fails for the `check-thresholds` API handler: with one wallet, one
snapshot, targets A/B at 50/50, balances 100 A and 0 B and unit prices, a
second invocation for the same (wallet, snapshot) pair inserts a second
alert event row (and sends a second notification) because the handler never
checks for an existing event. -/
theorem C5_alert_idempotency_counterexample :
    eventCount
        (processWalletApi true true
          (processWalletApi true true
            ⟨[("w1", "A", 50), ("w1", "B", 50)], [⟨"s1", "w1", "b1"⟩],
              [⟨"s1", "A", "100", none⟩, ⟨"s1", "B", "0", none⟩],
              [⟨"b1", "A", some 1⟩, ⟨"b1", "B", some 1⟩], []⟩
            ⟨"w1", none, "stake1x", .usd, 10, 0, true⟩).1
          ⟨"w1", none, "stake1x", .usd, 10, 0, true⟩).1
      "w1" "s1" = 2 := by
  have h100 : applyDecimals "100" none = 100 := by
    have h : parseJsDecimal "100".data = some (100, 0) := by decide
    norm_num [applyDecimals, jsNumber, h]
  have h0 : applyDecimals "0" none = 0 := by
    have h : parseJsDecimal "0".data = some (0, 0) := by decide
    norm_num [applyDecimals, jsNumber, h]
  iterate 10
    (try simp [String.reduceEq, processWalletApi, processWalletCore, targetsFor,
      selectSnapshot, latestSnapshot, quantitiesHumanFor, unitsNeeded, priceUsdFor,
      valueUsdByUnitList, computeCurrentPct, convertByBasis, computeDeviations,
      pricesForPlanOf, recordSet, alistLookup, strMem, dedupFirst, eventCount, countEvents,
      setDiscordStatus, h100, h0, List.filterMap_cons, List.filter_cons,
      computeRebalancePlan, planAllUnits, planDeltas, planAllocations, planOverweight,
      planUnderweight, planFee, sweepGo, sortDesc, sortAsc, insertDesc, insertAsc,
      priceLookup, priceMissing, planEps, roundDp])
    (try norm_num [processWalletApi, processWalletCore, targetsFor,
      selectSnapshot, latestSnapshot, quantitiesHumanFor, unitsNeeded, priceUsdFor,
      valueUsdByUnitList, computeCurrentPct, convertByBasis, computeDeviations,
      pricesForPlanOf, recordSet, alistLookup, strMem, dedupFirst, eventCount, countEvents,
      setDiscordStatus, h100, h0, List.filterMap_cons, List.filter_cons,
      computeRebalancePlan, planAllUnits, planDeltas, planAllocations, planOverweight,
      planUnderweight, planFee, sweepGo, sortDesc, sortAsc, insertDesc, insertAsc,
      priceLookup, priceMissing, planEps, roundDp])
